import Mathlib

/-!
Shallow embedding of the CTI_Platform news-aggregation core (`src/app.py`):
the canonical item record, the per-category fetch pipeline
(`_fetch_category`: dedupe by (title, link), sort by `published`
descending, truncate to 60), the TTL cache and freshness controller
(`_ensure_fresh`), the prewarm / force-refresh operations and the
aggregated read endpoint (`api_news`).  External feed providers are
modelled as an opaque function from category name to the list of
already-normalized raw items that `_fetch_category` accumulates before
deduplication; wall-clock time is passed explicitly (`now : Int` for
`time.time()`, `nowIso : String` for `datetime.now(utc).isoformat()`).
-/

namespace CTI

/-- Canonical news/intel record produced by the pipeline
(`_normalize_entry` output shape, also the shape of the curated
fallback records and the synthetic placeholder). -/
structure Item where
  title : String
  link : String
  summary : String
  source : String
  published : String
deriving DecidableEq, Repr

/-- De-duplication identity: `key = (it.get("title"), it.get("link"))`. -/
def keyOf (it : Item) : String × String := (it.title, it.link)

/-- Cache bucket: the dict holding the fetch time `ts` and the `items`. -/
structure Bucket where
  ts : Int
  items : List Item
deriving DecidableEq, Repr

/-- Process-wide mutable state: `_news_cache` (dict category -> bucket,
modelled as an association list with unique keys), `_seen_ids`
(set of (title, link) keys, modelled as a list with membership), and
`_last_build_time_iso`. -/
structure St where
  cache : List (String × Bucket)
  seen : List (String × String)
  lastBuild : String
deriving DecidableEq, Repr

/-- Model of `_news_cache.get(cat)`: first binding for the key, if any. -/
def lookupC : List (String × Bucket) → String → Option Bucket
  | [], _ => none
  | (k, b) :: rest, cat => if k = cat then some b else lookupC rest cat

/-- Drop every binding for a key (helper for dict update). -/
def removeCat : List (String × Bucket) → String → List (String × Bucket)
  | [], _ => []
  | p :: ps, cat => if p.1 = cat then removeCat ps cat else p :: removeCat ps cat

/-- Model of dict update `_news_cache[cat] = bucket` (the key occurs once). -/
def setC (c : List (String × Bucket)) (cat : String) (b : Bucket) :
    List (String × Bucket) :=
  (cat, b) :: removeCat c cat

/-- Constant `CACHE_TTL_SECONDS = 10 * 60`. -/
def CACHE_TTL_SECONDS : Int := 10 * 60

/-- Constant `CATEGORIES` from the config block. -/
def CATEGORIES : List String :=
  ["Ransomware", "Vulnerabilities", "Data Breaches", "APT",
   "Phishing", "Cloud/SaaS", "Malware/Tools"]

/-! Sorting by `published` descending

`uniq.sort(key=lambda x: x["published"], reverse=True)`: a stable sort,
descending under lexicographic string comparison of the ISO timestamps.
Modelled as a left-fold insertion sort that inserts each new element
after all already-placed elements with a `published` value ≥ its own,
which reproduces the stable descending order. -/

/-- Insert `x` into a descending-sorted list, after every element whose
`published` is ≥ `x.published`. -/
def insertByPub (x : Item) : List Item → List Item
  | [] => [x]
  | y :: ys =>
      if x.published ≤ y.published then y :: insertByPub x ys
      else x :: y :: ys

/-- Stable descending sort by `published` (model of
`list.sort(key=..., reverse=True)`). -/
def sortDesc (l : List Item) : List Item :=
  l.foldl (fun acc x => insertByPub x acc) []

/-- Descending order predicate: whenever `a` precedes `b`,
`b.published ≤ a.published`. -/
def SortedDesc (l : List Item) : Prop :=
  l.Pairwise (fun a b => b.published ≤ a.published)

/-! Deduplication (`_fetch_category` lines: seen-set loop) -/

/-- The dedupe loop of `_fetch_category`: keep an item iff its
`(title, link)` key has not been seen yet. -/
def dedupeAux (seen : List (String × String)) : List Item → List Item
  | [] => []
  | x :: xs =>
      if keyOf x ∈ seen then dedupeAux seen xs
      else x :: dedupeAux (keyOf x :: seen) xs

/-- Deduplicate by `(title, link)`, keeping the first occurrence. -/
def dedupe (l : List Item) : List Item := dedupeAux [] l

/-- Model of `_fetch_category`, applied to the concatenated list of normalized
raw records collected from the sources of the category (RSS entries, OTX,
Feodo cards, in source-declaration order): de-dupe, sort by `published`
descending, return the first 60. -/
def fetch_category (raw : List Item) : List Item :=
  ((sortDesc (dedupe raw)).take 60)

/-! Basic lemmas about the sort -/

theorem insertByPub_perm (x : Item) (l : List Item) :
    (insertByPub x l).Perm (x :: l) := by
  induction l with
  | nil => simp [insertByPub]
  | cons y ys ih =>
      by_cases h : x.published ≤ y.published
      · simpa [insertByPub, h] using
          ((ih.cons y).trans (List.Perm.swap x y ys))
      · simp [insertByPub, h]

theorem sortDesc_aux_perm (l : List Item) : ∀ acc,
    (l.foldl (fun acc x => insertByPub x acc) acc).Perm (acc ++ l) := by
  induction l with
  | nil => intro acc; simp
  | cons x xs ih =>
      intro acc
      have h1 := ih (insertByPub x acc)
      have h2 : ((insertByPub x acc) ++ xs).Perm (acc ++ x :: xs) := by
        refine ((insertByPub_perm x acc).append_right xs).trans ?_
        have hmid : (acc ++ x :: xs).Perm (x :: (acc ++ xs)) :=
          List.perm_middle
        simpa using hmid.symm
      exact h1.trans h2

theorem sortDesc_perm (l : List Item) : (sortDesc l).Perm l := by
  simpa [sortDesc] using sortDesc_aux_perm l []

theorem insertByPub_sorted {x : Item} {l : List Item}
    (h : SortedDesc l) : SortedDesc (insertByPub x l) := by
  induction l with
  | nil => simp [insertByPub, SortedDesc]
  | cons y ys ih =>
      rcases (List.pairwise_cons.mp h) with ⟨hy, hys⟩
      by_cases hle : x.published ≤ y.published
      · have hrec := ih hys
        have hmem : ∀ z ∈ insertByPub x ys, z.published ≤ y.published := by
          intro z hz
          have : z ∈ x :: ys := (insertByPub_perm x ys).mem_iff.mp hz
          rcases List.mem_cons.mp this with h1 | h2
          · simpa [h1] using hle
          · exact hy z h2
        simpa [insertByPub, hle, SortedDesc] using
          List.pairwise_cons.mpr ⟨hmem, hrec⟩
      · have hxy : y.published ≤ x.published := le_of_not_le hle
        have hall : ∀ z ∈ y :: ys, z.published ≤ x.published := by
          intro z hz
          rcases List.mem_cons.mp hz with h1 | h2
          · simpa [h1] using hxy
          · exact le_trans (hy z h2) hxy
        simpa [insertByPub, hle, SortedDesc] using
          List.pairwise_cons.mpr ⟨hall, h⟩

/-! Basic lemmas about the dedupe loop -/

theorem dedupeAux_not_in_seen (l : List Item) : ∀ seen x,
    x ∈ dedupeAux seen l → keyOf x ∉ seen := by
  induction l with
  | nil => intro seen x hx; simp [dedupeAux] at hx
  | cons z zs ih =>
      intro seen x hx
      by_cases hz : keyOf z ∈ seen
      · exact ih seen x (by simpa [dedupeAux, hz] using hx)
      · rcases List.mem_cons.mp (by simpa [dedupeAux, hz] using hx) with h1 | h2
        · simpa [h1] using hz
        · have := ih (keyOf z :: seen) x h2
          intro hc; exact this (List.mem_cons_of_mem _ hc)

theorem dedupeAux_keys_distinct (l : List Item) : ∀ seen,
    (dedupeAux seen l).Pairwise (fun a b => keyOf a ≠ keyOf b) := by
  induction l with
  | nil => intro seen; simp [dedupeAux]
  | cons z zs ih =>
      intro seen
      by_cases hz : keyOf z ∈ seen
      · simpa [dedupeAux, hz] using ih seen
      · have htail := ih (keyOf z :: seen)
        have hhead : ∀ y ∈ dedupeAux (keyOf z :: seen) zs, keyOf z ≠ keyOf y := by
          intro y hy
          have := dedupeAux_not_in_seen zs (keyOf z :: seen) y hy
          intro hc; exact this (by simp [hc])
        simpa [dedupeAux, hz] using List.pairwise_cons.mpr ⟨hhead, htail⟩

/-- Each element of the deduplicated list is the FIRST element of the
input with its `(title, link)` key. -/
theorem dedupeAux_first_occurrence (l : List Item) : ∀ seen x,
    x ∈ dedupeAux seen l →
      l.find? (fun y => decide (keyOf y = keyOf x)) = some x := by
  induction l with
  | nil => intro seen x hx; simp [dedupeAux] at hx
  | cons z zs ih =>
      intro seen x hx
      by_cases hz : keyOf z ∈ seen
      · have hx' : x ∈ dedupeAux seen zs := by simpa [dedupeAux, hz] using hx
        have hne : keyOf z ≠ keyOf x := by
          intro hc
          exact dedupeAux_not_in_seen zs seen x hx' (hc ▸ hz)
        simpa [List.find?, hne] using ih seen x hx'
      · rcases List.mem_cons.mp (by simpa [dedupeAux, hz] using hx) with h1 | h2
        · subst h1; simp [List.find?]
        · have hx' := ih (keyOf z :: seen) x h2
          have hnotin := dedupeAux_not_in_seen zs (keyOf z :: seen) x h2
          have hne : keyOf z ≠ keyOf x := by
            intro hc
            exact hnotin (by simp [hc])
          simpa [List.find?, hne] using hx'

theorem sortDesc_sorted (l : List Item) : SortedDesc (sortDesc l) := by
  have : ∀ acc, SortedDesc acc →
      SortedDesc (l.foldl (fun acc x => insertByPub x acc) acc) := by
    induction l with
    | nil => intro acc h; simpa using h
    | cons x xs ih =>
        intro acc h
        exact ih (insertByPub x acc) (insertByPub_sorted h)
  simpa [sortDesc] using this [] (by simp [SortedDesc])

/-! Curated fallback content (`_fallback_items`)

`_fallback_items(cat)` stamps every curated record with the call-time
ISO timestamp and returns `base.get(cat, [])`. -/

/-- Model of `_fallback_items`: the curated table, keyed by category; unknown
categories get `[]`. -/
def fallback_items (nowIso : String) (cat : String) : List Item :=
  if cat = "Ransomware" then
    [⟨"CISA Ransomware Guidance & Resources",
      "https://www.cisa.gov/stopransomware",
      "Official CISA hub with advisories, checklists, and prevention guidance for ransomware.",
      "CISA", nowIso⟩,
     ⟨"Nomoreransom.org Decryption Tools",
      "https://www.nomoreransom.org/en/decryption-tools.html",
      "Repository of free decryption tools and advice for victims of common ransomware families.",
      "No More Ransom", nowIso⟩]
  else if cat = "Vulnerabilities" then
    [⟨"NVD – National Vulnerability Database",
      "https://nvd.nist.gov/vuln/search",
      "Search and browse CVEs with CVSS scoring, references, and impact information.",
      "NIST", nowIso⟩,
     ⟨"CISA Known Exploited Vulnerabilities Catalog",
      "https://www.cisa.gov/known-exploited-vulnerabilities-catalog",
      "Authoritative list of CVEs that are known to be actively exploited in the wild.",
      "CISA", nowIso⟩]
  else if cat = "Data Breaches" then
    [⟨"Have I Been Pwned – Latest Breaches",
      "https://haveibeenpwned.com/PwnedWebsites",
      "Directory of public data breaches with summary, dates and types of exposed data.",
      "Have I Been Pwned", nowIso⟩,
     ⟨"Privacy Rights Clearinghouse Data Breach Chronology",
      "https://privacyrights.org/data-breaches",
      "Historical log of reported data breaches with filters for industry and cause.",
      "Privacy Rights Clearinghouse", nowIso⟩]
  else if cat = "APT" then
    [⟨"MITRE ATT&CK – Groups",
      "https://attack.mitre.org/groups/",
      "Catalog of tracked threat groups (APTs) with techniques, software and campaigns.",
      "MITRE", nowIso⟩,
     ⟨"Mandiant – Threat Intelligence Blog",
      "https://www.mandiant.com/resources/blog",
      "Research articles on nation-state and financially motivated intrusion campaigns.",
      "Mandiant", nowIso⟩]
  else if cat = "Phishing" then
    [⟨"APWG Phishing Activity Trends Report",
      "https://apwg.org/trendsreports/",
      "Regular reports with metrics on phishing volumes, lures, and targeted brands.",
      "APWG", nowIso⟩,
     ⟨"Google – How to Recognize & Avoid Phishing",
      "https://safety.google/security/phishing-prevention/",
      "Practical guidance for spotting and reporting phishing attempts.",
      "Google Safety", nowIso⟩]
  else if cat = "Cloud/SaaS" then
    [⟨"AWS Security Blog – Cloud Best Practices",
      "https://aws.amazon.com/blogs/security/",
      "Updates and deep dives on securing workloads on AWS and hybrid environments.",
      "AWS", nowIso⟩,
     ⟨"Google Cloud Security Blog",
      "https://cloud.google.com/blog/topics/security",
      "Product updates, incident write-ups and best practices for Google Cloud.",
      "Google Cloud", nowIso⟩,
     ⟨"Microsoft Security Blog – Cloud & Identity",
      "https://www.microsoft.com/security/blog/",
      "Posts on SaaS security, identity protection and threat intelligence.",
      "Microsoft", nowIso⟩]
  else if cat = "Malware/Tools" then
    [⟨"Malwarebytes Labs – Threat Intelligence",
      "https://www.malwarebytes.com/blog/threat-intelligence",
      "Research articles on new malware families, loaders, and crimeware trends.",
      "Malwarebytes", nowIso⟩,
     ⟨"BleepingComputer – Malware News",
      "https://www.bleepingcomputer.com/malware/",
      "News and analysis on active malware campaigns and defensive tools.",
      "BleepingComputer", nowIso⟩,
     ⟨"KrebsOnSecurity – Tools & Attacks",
      "https://krebsonsecurity.com/",
      "In-depth investigations into cybercrime operations and malware ecosystems.",
      "KrebsOnSecurity", nowIso⟩]
  else []

/-! Freshness controller (`_ensure_fresh`) -/

/-- The last-resort synthetic placeholder item built inside
`_ensure_fresh` when both the fetch and the fallback table are empty. -/
def placeholder_item (nowIso : String) (cat : String) : Item :=
  ⟨cat ++ " – no live headlines right now", "#",
   "Nothing live from the feeds at this moment.", "System", nowIso⟩

/-- The new-item detection loop of `_ensure_fresh`: an item is "new"
when its `(title, link)` key is not in `_seen_ids` AND its link is not
`""` or `"#"`; each such key is added to `_seen_ids` on the spot.
Returns the updated seen set and the list of newly observed items
(the argument handed to `_notify_new_items`). -/
def scan_new (seen : List (String × String)) :
    List Item → List (String × String) × List Item
  | [] => (seen, [])
  | it :: rest =>
      if keyOf it ∉ seen ∧ it.link ≠ "" ∧ it.link ≠ "#" then
        let r := scan_new (keyOf it :: seen) rest
        (r.1, it :: r.2)
      else scan_new seen rest

/-- Result of one `_ensure_fresh` call: the returned bucket, the state
after the call, the items handed to the notification sink, and whether
an underlying fetch was performed. -/
structure FreshResult where
  bucket : Bucket
  st : St
  notified : List Item
  fetched : Bool
deriving Repr

/-- The stale branch of `_ensure_fresh`: fetch, apply the fallback
chain, scan for new items, store the new bucket, bump the last-build
timestamp. -/
def refresh_bucket (fetchRaw : String → List Item) (now : Int)
    (nowIso : String) (cat : String) (s : St) : FreshResult :=
  let fetched := fetch_category (fetchRaw cat)
  let items1 := if fetched = [] then fallback_items nowIso cat else fetched
  let items := if items1 = [] then [placeholder_item nowIso cat] else items1
  let sn := scan_new s.seen items
  let b : Bucket := ⟨now, items⟩
  ⟨b, ⟨setC s.cache cat b, sn.1, nowIso⟩, sn.2, true⟩

/-- Model of `_ensure_fresh(cat)`: if the bucket is present and
`now - ts ≤ CACHE_TTL_SECONDS`, return it unchanged with no side
effects; otherwise refresh. `fetchRaw` models the opaque providers:
it yields the normalized raw records `_fetch_category` accumulates for
a category before deduplication. -/
def ensure_fresh (fetchRaw : String → List Item) (now : Int)
    (nowIso : String) (cat : String) (s : St) : FreshResult :=
  match lookupC s.cache cat with
  | some b =>
      if now - b.ts > CACHE_TTL_SECONDS then
        refresh_bucket fetchRaw now nowIso cat s
      else ⟨b, s, [], false⟩
  | none => refresh_bucket fetchRaw now nowIso cat s

/-- Model of `_prewarm()`: `ensure_fresh` over all categories, threading state. -/
def prewarm (fetchRaw : String → List Item) (now : Int) (nowIso : String)
    (s : St) : St :=
  CATEGORIES.foldl (fun st c => (ensure_fresh fetchRaw now nowIso c st).st) s

/-- Model of the `/api/refresh` handler: clear `_news_cache` (the seen set and last-build
timestamp are untouched by the clear), then `_prewarm()`. -/
def api_refresh (fetchRaw : String → List Item) (now : Int)
    (nowIso : String) (s : St) : St :=
  prewarm fetchRaw now nowIso { s with cache := [] }

/-! Aggregated read (`api_news`) -/

/-- The merge loop of `api_news`: `ensure_fresh` every category in
order, concatenating the item lists of the buckets. -/
def merged_all (fetchRaw : String → List Item) (now : Int)
    (nowIso : String) (s : St) : St × List Item :=
  CATEGORIES.foldl (fun p c =>
    let r := ensure_fresh fetchRaw now nowIso c p.1
    (r.st, p.2 ++ r.bucket.items)) (s, [])

/-- JSON body of `/api/news`. -/
structure NewsResponse where
  items : List Item
  total_all : Nat
  updated : String
deriving Repr

/-- Model of `GET /api/news?limit=`: FastAPI rejects `limit` outside `[1, 200]`
(`Query(60, ge=1, le=200)`), modelled as `none`; otherwise merge all
categories, sort by `published` descending, truncate to `limit`, and
report `total_all = len(merged)` AFTER truncation together with the
global last-build timestamp. -/
def api_news (fetchRaw : String → List Item) (now : Int) (nowIso : String)
    (limit : Nat) (s : St) : Option (NewsResponse × St) :=
  if 1 ≤ limit ∧ limit ≤ 200 then
    let p := merged_all fetchRaw now nowIso s
    let final := (sortDesc p.2).take limit
    some (⟨final, final.length, p.1.lastBuild⟩, p.1)
  else none

/-! Call traces (for lifetime properties of the seen set) -/

/-- One `_ensure_fresh` invocation: the provider snapshot, the clock
values, and the requested category. -/
structure Call where
  fetchRaw : String → List Item
  now : Int
  nowIso : String
  cat : String

/-- Run a sequence of `_ensure_fresh` calls from a state, collecting
the notified-items list of each call. -/
def run_trace : St → List Call → St × List (List Item)
  | s, [] => (s, [])
  | s, c :: cs =>
      let r := ensure_fresh c.fetchRaw c.now c.nowIso c.cat s
      let p := run_trace r.st cs
      (p.1, r.notified :: p.2)

/-! Cache-map lemmas -/

theorem lookupC_removeCat_ne (c : List (String × Bucket)) (cat k : String)
    (hk : k ≠ cat) :
    lookupC (removeCat c cat) k = lookupC c k := by
  induction c with
  | nil => simp [removeCat]
  | cons p ps ih =>
      have hck : cat ≠ k := fun hc => hk hc.symm
      by_cases hp : p.1 = cat
      · have hpk : p.1 ≠ k := by rw [hp]; exact hck
        simp [removeCat, lookupC, hp, hpk, hck, ih]
      · by_cases hpk : p.1 = k
        · simp [removeCat, lookupC, hp, hpk, hk]
        · simp [removeCat, lookupC, hp, hpk, ih]

theorem lookupC_setC_self (c : List (String × Bucket)) (cat : String)
    (b : Bucket) : lookupC (setC c cat b) cat = some b := by
  simp [setC, lookupC]

theorem lookupC_setC_ne (c : List (String × Bucket)) (cat k : String)
    (b : Bucket) (hk : k ≠ cat) :
    lookupC (setC c cat b) k = lookupC c k := by
  have hck : cat ≠ k := fun hc => hk hc.symm
  simp [setC, lookupC, hck]
  exact lookupC_removeCat_ne c cat k hk

/-! Generic consequences of the fetch pipeline -/

theorem mem_fetch_category_dedupe {raw : List Item} {x : Item}
    (hx : x ∈ fetch_category raw) : x ∈ dedupe raw :=
  (sortDesc_perm (dedupe raw)).mem_iff.mp ((List.take_sublist _ _).subset hx)

theorem sortDesc_length (l : List Item) : (sortDesc l).length = l.length :=
  (sortDesc_perm l).length_eq

theorem sorted_take_drop_dominance {l : List Item} (h : SortedDesc l)
    (n : Nat) :
    ∀ x ∈ l.take n, ∀ y ∈ l.drop n, y.published ≤ x.published := by
  have h' : SortedDesc (l.take n ++ l.drop n) := by
    rw [List.take_append_drop]; exact h
  exact (List.pairwise_append.mp h').2.2

/-! Shape of a successful `api_news` response -/

theorem api_news_eq_some {fr : String → List Item} {now : Int}
    {iso : String} {limit : Nat} {s : St} {resp : NewsResponse} {s' : St}
    (h : api_news fr now iso limit s = some (resp, s')) :
    (1 ≤ limit ∧ limit ≤ 200) ∧
    resp.items = (sortDesc (merged_all fr now iso s).2).take limit ∧
    resp.total_all = resp.items.length ∧
    resp.updated = (merged_all fr now iso s).1.lastBuild ∧
    s' = (merged_all fr now iso s).1 := by
  by_cases hc : 1 ≤ limit ∧ limit ≤ 200
  · rw [api_news, if_pos hc] at h
    have h2 := Option.some.inj h
    have hresp : resp =
        ⟨(sortDesc (merged_all fr now iso s).2).take limit,
         ((sortDesc (merged_all fr now iso s).2).take limit).length,
         (merged_all fr now iso s).1.lastBuild⟩ :=
      (congrArg Prod.fst h2).symm
    have hst : s' = (merged_all fr now iso s).1 :=
      (congrArg Prod.snd h2).symm
    refine ⟨hc, ?_, ?_, ?_, hst⟩ <;> simp [hresp]
  · rw [api_news, if_neg hc] at h
    exact absurd h (by simp)

/-! Claim theorems -/

/-- C3: the category fetcher deduplicates by the `(title, link)` key,
keeping the first occurrence in source-declaration order: the returned
list never contains two items with the same key, two raw records with
an identical key yield exactly one Item, and every returned item is the
first input record carrying its key. -/
theorem fetch_category_dedup :
    (∀ raw : List Item,
        (fetch_category raw).Pairwise (fun a b => keyOf a ≠ keyOf b))
    ∧ (∀ r1 r2 : Item, keyOf r1 = keyOf r2 → fetch_category [r1, r2] = [r1])
    ∧ (∀ (raw : List Item) (x : Item), x ∈ fetch_category raw →
        raw.find? (fun y => decide (keyOf y = keyOf x)) = some x) := by
  refine ⟨?_, ?_, ?_⟩
  · intro raw
    have hd := dedupeAux_keys_distinct raw []
    have hs : (sortDesc (dedupe raw)).Pairwise (fun a b => keyOf a ≠ keyOf b) :=
      ((sortDesc_perm (dedupe raw)).pairwise_iff (fun h => Ne.symm h)).mpr hd
    exact List.Pairwise.sublist (List.take_sublist _ _) hs
  · intro r1 r2 h
    simp [fetch_category, dedupe, dedupeAux, sortDesc, insertByPub, h]
  · intro raw x hx
    exact dedupeAux_first_occurrence raw [] x (mem_fetch_category_dedupe hx)

/-- C3 witness: two concrete raw records with the same `(title, link)`
key yield exactly the first one. -/
theorem fetch_category_dedup_witness :
    fetch_category
      [⟨"t", "https://l", "a", "s1", "2024-01-02T00:00:00+00:00"⟩,
       ⟨"t", "https://l", "b", "s2", "2024-01-01T00:00:00+00:00"⟩]
      = [⟨"t", "https://l", "a", "s1", "2024-01-02T00:00:00+00:00"⟩] :=
  fetch_category_dedup.2.1 _ _ (by decide)

/-- C4: a fetched category list is sorted by `published` descending
(`a.published ≥ b.published` whenever `a` precedes `b`), holds at most
60 items, and the aggregated `api_news` list is sorted the same way. -/
theorem fetch_category_sorted_bounded :
    (∀ raw : List Item, SortedDesc (fetch_category raw))
    ∧ (∀ raw : List Item, (fetch_category raw).length ≤ 60)
    ∧ (∀ (fr : String → List Item) (now : Int) (iso : String) (limit : Nat)
        (s : St) (resp : NewsResponse) (s' : St),
        api_news fr now iso limit s = some (resp, s') →
        SortedDesc resp.items) := by
  refine ⟨?_, ?_, ?_⟩
  · intro raw
    exact List.Pairwise.sublist (List.take_sublist _ _)
      (sortDesc_sorted (dedupe raw))
  · intro raw
    simp [fetch_category]
  · intro fr now iso limit s resp s' h
    have hi := (api_news_eq_some h).2.1
    rw [hi]
    exact List.Pairwise.sublist (List.take_sublist _ _)
      (sortDesc_sorted (merged_all fr now iso s).2)

/-- C4 witness: a concrete unsorted three-record input comes back
sorted descending and within the bound; the concrete aggregated read
on an all-fresh single-bucket cache is sorted as well. -/
theorem fetch_category_sorted_bounded_witness :
    SortedDesc (fetch_category
      [⟨"a", "https://a", "", "", "2024-01-01T00:00:00+00:00"⟩,
       ⟨"b", "https://b", "", "", "2024-03-01T00:00:00+00:00"⟩,
       ⟨"c", "https://c", "", "", "2024-02-01T00:00:00+00:00"⟩])
    ∧ (fetch_category
      [⟨"a", "https://a", "", "", "2024-01-01T00:00:00+00:00"⟩,
       ⟨"b", "https://b", "", "", "2024-03-01T00:00:00+00:00"⟩,
       ⟨"c", "https://c", "", "", "2024-02-01T00:00:00+00:00"⟩]).length ≤ 60 :=
  ⟨fetch_category_sorted_bounded.1 _, fetch_category_sorted_bounded.2.1 _⟩

/-! Branch lemmas for the freshness controller -/

theorem refresh_bucket_ts (fr : String → List Item) (now : Int)
    (iso cat : String) (s : St) :
    (refresh_bucket fr now iso cat s).bucket.ts = now := rfl

theorem refresh_bucket_fetched (fr : String → List Item) (now : Int)
    (iso cat : String) (s : St) :
    (refresh_bucket fr now iso cat s).fetched = true := rfl

theorem refresh_bucket_cache (fr : String → List Item) (now : Int)
    (iso cat : String) (s : St) :
    (refresh_bucket fr now iso cat s).st.cache =
      setC s.cache cat (refresh_bucket fr now iso cat s).bucket := rfl

theorem refresh_bucket_lastBuild (fr : String → List Item) (now : Int)
    (iso cat : String) (s : St) :
    (refresh_bucket fr now iso cat s).st.lastBuild = iso := rfl

/-- How the fallback chain decides the stored items list. -/
theorem refresh_bucket_items (fr : String → List Item) (now : Int)
    (iso cat : String) (s : St) :
    (refresh_bucket fr now iso cat s).bucket.items ≠ [] ∧
    (fetch_category (fr cat) ≠ [] →
      (refresh_bucket fr now iso cat s).bucket.items = fetch_category (fr cat)) ∧
    (fetch_category (fr cat) = [] → fallback_items iso cat ≠ [] →
      (refresh_bucket fr now iso cat s).bucket.items = fallback_items iso cat) ∧
    (fetch_category (fr cat) = [] → fallback_items iso cat = [] →
      (refresh_bucket fr now iso cat s).bucket.items =
        [placeholder_item iso cat]) := by
  by_cases h1 : fetch_category (fr cat) = []
  · by_cases h2 : fallback_items iso cat = []
    · simp [refresh_bucket, h1, h2]
    · simp [refresh_bucket, h1, h2]
  · simp [refresh_bucket, h1]

theorem ensure_fresh_none {fr : String → List Item} {now : Int}
    {iso cat : String} {s : St} (h : lookupC s.cache cat = none) :
    ensure_fresh fr now iso cat s = refresh_bucket fr now iso cat s := by
  simp [ensure_fresh, h]

theorem ensure_fresh_fresh {fr : String → List Item} {now : Int}
    {iso cat : String} {s : St} {b : Bucket}
    (h : lookupC s.cache cat = some b)
    (ht : now - b.ts ≤ CACHE_TTL_SECONDS) :
    ensure_fresh fr now iso cat s = ⟨b, s, [], false⟩ := by
  simp [ensure_fresh, h, not_lt.mpr ht]

theorem ensure_fresh_stale {fr : String → List Item} {now : Int}
    {iso cat : String} {s : St} {b : Bucket}
    (h : lookupC s.cache cat = some b)
    (ht : CACHE_TTL_SECONDS < now - b.ts) :
    ensure_fresh fr now iso cat s = refresh_bucket fr now iso cat s := by
  simp [ensure_fresh, h, ht]

/-- The bucket cache only ever holds non-empty item lists. -/
def NonemptyCache (s : St) : Prop :=
  ∀ cat b, lookupC s.cache cat = some b → b.items ≠ []

/-- C1: `_ensure_fresh` never returns an empty `items` list: an empty
fetch result is replaced by the curated fallback content for the
category, and when that is also absent by the single synthetic
placeholder item whose `link` is `"#"` and whose `title` names the
category; the non-emptiness invariant is preserved on the cache. -/
theorem ensure_fresh_items_nonempty :
    ∀ (fr : String → List Item) (now : Int) (iso cat : String) (s : St),
      NonemptyCache s →
      (ensure_fresh fr now iso cat s).bucket.items ≠ [] ∧
      NonemptyCache (ensure_fresh fr now iso cat s).st ∧
      (fetch_category (fr cat) = [] → fallback_items iso cat ≠ [] →
        (ensure_fresh fr now iso cat s).fetched = true →
        (ensure_fresh fr now iso cat s).bucket.items =
          fallback_items iso cat) ∧
      (fetch_category (fr cat) = [] → fallback_items iso cat = [] →
        (ensure_fresh fr now iso cat s).fetched = true →
        (ensure_fresh fr now iso cat s).bucket.items =
          [placeholder_item iso cat]) ∧
      (placeholder_item iso cat).link = "#" ∧
      (placeholder_item iso cat).title =
        cat ++ " – no live headlines right now" := by
  intro fr now iso cat s hinv
  have hrefresh : ∀ hEq : ensure_fresh fr now iso cat s =
      refresh_bucket fr now iso cat s,
      (ensure_fresh fr now iso cat s).bucket.items ≠ [] ∧
      NonemptyCache (ensure_fresh fr now iso cat s).st ∧
      (fetch_category (fr cat) = [] → fallback_items iso cat ≠ [] →
        (ensure_fresh fr now iso cat s).fetched = true →
        (ensure_fresh fr now iso cat s).bucket.items =
          fallback_items iso cat) ∧
      (fetch_category (fr cat) = [] → fallback_items iso cat = [] →
        (ensure_fresh fr now iso cat s).fetched = true →
        (ensure_fresh fr now iso cat s).bucket.items =
          [placeholder_item iso cat]) := by
    intro hEq
    obtain ⟨hne, hfetch, hfb, hph⟩ := refresh_bucket_items fr now iso cat s
    rw [hEq]
    refine ⟨hne, ?_, fun h1 h2 _ => hfb h1 h2, fun h1 h2 _ => hph h1 h2⟩
    intro k b' hk
    rw [refresh_bucket_cache] at hk
    by_cases hkc : k = cat
    · subst hkc
      rw [lookupC_setC_self] at hk
      exact (Option.some.inj hk) ▸ hne
    · rw [lookupC_setC_ne _ _ _ _ hkc] at hk
      exact hinv k b' hk
  cases hbl : lookupC s.cache cat with
  | none =>
      obtain ⟨h1, h2, h3, h4⟩ := hrefresh (ensure_fresh_none hbl)
      exact ⟨h1, h2, h3, h4, rfl, rfl⟩
  | some b =>
      by_cases ht : CACHE_TTL_SECONDS < now - b.ts
      · obtain ⟨h1, h2, h3, h4⟩ := hrefresh (ensure_fresh_stale hbl ht)
        exact ⟨h1, h2, h3, h4, rfl, rfl⟩
      · have hfr : ensure_fresh fr now iso cat s = ⟨b, s, [], false⟩ :=
          ensure_fresh_fresh hbl (not_lt.mp ht)
        rw [hfr]
        refine ⟨hinv cat b hbl, hinv, ?_, ?_, rfl, rfl⟩
        · intro _ _ hfe; simp at hfe
        · intro _ _ hfe; simp at hfe

/-- C1 witness: a category with no sources and no curated fallback
still yields a non-empty bucket from the empty initial state. -/
theorem ensure_fresh_items_nonempty_witness :
    (ensure_fresh (fun _ => []) 0 "T0" "Bogus"
      ⟨[], [], "B0"⟩).bucket.items ≠ [] := by
  have hinv : NonemptyCache ⟨[], [], "B0"⟩ := by
    intro cat b h; simp [lookupC] at h
  exact (ensure_fresh_items_nonempty (fun _ => []) 0 "T0" "Bogus"
    ⟨[], [], "B0"⟩ hinv).1

/-- C2: if the bucket exists and is at most `CACHE_TTL_SECONDS` old,
`_ensure_fresh` returns it unchanged with no fetch and no mutation of
cache, seen set or last-build timestamp; if the bucket is absent or
older than the TTL, a fetch is performed and a bucket stamped `now` is
stored; hence two calls within the TTL window perform exactly one
underlying fetch. -/
theorem ensure_fresh_ttl_frame :
    (∀ (fr : String → List Item) (now : Int) (iso cat : String) (s : St)
        (b : Bucket), lookupC s.cache cat = some b →
        now - b.ts ≤ CACHE_TTL_SECONDS →
        ensure_fresh fr now iso cat s = ⟨b, s, [], false⟩)
    ∧ (∀ (fr : String → List Item) (now : Int) (iso cat : String) (s : St),
        (lookupC s.cache cat = none ∨
         ∃ b, lookupC s.cache cat = some b ∧ CACHE_TTL_SECONDS < now - b.ts) →
        (ensure_fresh fr now iso cat s).fetched = true ∧
        (ensure_fresh fr now iso cat s).bucket.ts = now)
    ∧ (∀ (fr1 fr2 : String → List Item) (now1 now2 : Int)
        (iso1 iso2 cat : String) (s : St),
        lookupC s.cache cat = none →
        now2 - now1 ≤ CACHE_TTL_SECONDS →
        (ensure_fresh fr1 now1 iso1 cat s).fetched = true ∧
        ensure_fresh fr2 now2 iso2 cat (ensure_fresh fr1 now1 iso1 cat s).st
          = ⟨(ensure_fresh fr1 now1 iso1 cat s).bucket,
             (ensure_fresh fr1 now1 iso1 cat s).st, [], false⟩) := by
  refine ⟨?_, ?_, ?_⟩
  · intro fr now iso cat s b hb ht
    exact ensure_fresh_fresh hb ht
  · intro fr now iso cat s h
    rcases h with hnone | ⟨b, hb, ht⟩
    · rw [ensure_fresh_none hnone]
      exact ⟨refresh_bucket_fetched _ _ _ _ _, refresh_bucket_ts _ _ _ _ _⟩
    · rw [ensure_fresh_stale hb ht]
      exact ⟨refresh_bucket_fetched _ _ _ _ _, refresh_bucket_ts _ _ _ _ _⟩
  · intro fr1 fr2 now1 now2 iso1 iso2 cat s hnone hwin
    have h1 : ensure_fresh fr1 now1 iso1 cat s =
        refresh_bucket fr1 now1 iso1 cat s := ensure_fresh_none hnone
    have hlook : lookupC (ensure_fresh fr1 now1 iso1 cat s).st.cache cat =
        some (ensure_fresh fr1 now1 iso1 cat s).bucket := by
      rw [h1, refresh_bucket_cache]
      exact lookupC_setC_self _ _ _
    have hts : (ensure_fresh fr1 now1 iso1 cat s).bucket.ts = now1 := by
      rw [h1]; exact refresh_bucket_ts _ _ _ _ _
    refine ⟨by rw [h1]; exact refresh_bucket_fetched _ _ _ _ _, ?_⟩
    exact ensure_fresh_fresh hlook (by rw [hts]; exact hwin)

/-- C2 witness: a bucket fetched at time 0 is returned unchanged, with
no fetch, at time 100 (within the 600 second TTL). -/
theorem ensure_fresh_ttl_frame_witness :
    ensure_fresh (fun _ => []) 100 "T1" "Ransomware"
      ⟨[("Ransomware", ⟨0, [⟨"a", "https://a", "", "", "P"⟩]⟩)], [], "B0"⟩
    = ⟨⟨0, [⟨"a", "https://a", "", "", "P"⟩]⟩,
       ⟨[("Ransomware", ⟨0, [⟨"a", "https://a", "", "", "P"⟩]⟩)], [], "B0"⟩,
       [], false⟩ :=
  ensure_fresh_ttl_frame.1 (fun _ => []) 100 "T1" "Ransomware"
    ⟨[("Ransomware", ⟨0, [⟨"a", "https://a", "", "", "P"⟩]⟩)], [], "B0"⟩
    ⟨0, [⟨"a", "https://a", "", "", "P"⟩]⟩ (by simp [lookupC]) (by decide)

/-! A concrete all-fresh demo state: 7 categories, 10 items each -/

def demoItem (t p : String) : Item := ⟨t, "https://x/" ++ t, "", "src", p⟩

def demoBucket (tag : String) : Bucket :=
  ⟨0, (List.range 10).map fun i => demoItem (tag ++ toString i) ("P" ++ toString i)⟩

def demoState : St := ⟨CATEGORIES.map (fun c => (c, demoBucket c)), [], "B0"⟩

def demoNews : Option (NewsResponse × St) :=
  api_news (fun _ => []) 0 "T" 5 demoState

def demoResp : NewsResponse := (demoNews.getD (⟨[], 0, ""⟩, demoState)).1

def demoSt : St := (demoNews.getD (⟨[], 0, ""⟩, demoState)).2

/-- C10: a successful `/api/news` response reports
`total_all = len(items)` measured AFTER truncation — the minimum of the
requested limit and the merged item count, not the total available —
and the endpoint rejects any `limit` outside `[1, 200]`. -/
theorem api_news_total_counts :
    (∀ (fr : String → List Item) (now : Int) (iso : String) (limit : Nat)
        (s : St) (resp : NewsResponse) (s' : St),
        api_news fr now iso limit s = some (resp, s') →
        resp.total_all = resp.items.length ∧
        resp.items.length = min limit (merged_all fr now iso s).2.length)
    ∧ (∀ (fr : String → List Item) (now : Int) (iso : String) (limit : Nat)
        (s : St), (limit < 1 ∨ 200 < limit) →
        api_news fr now iso limit s = none) := by
  constructor
  · intro fr now iso limit s resp s' h
    obtain ⟨_, hitems, htot, _, _⟩ := api_news_eq_some h
    refine ⟨htot, ?_⟩
    rw [hitems, List.length_take, sortDesc_length]
  · intro fr now iso limit s h
    rw [api_news, if_neg]
    rintro ⟨h1, h2⟩
    rcases h with h | h
    · exact absurd h1 (not_le.mpr h)
    · exact absurd h2 (not_le.mpr h)

/-- C10 witness: on the demo state (70 merged items) with limit 5, the
reported total equals the truncated length, i.e. `min 5 70`. -/
theorem api_news_total_counts_witness :
    demoResp.total_all = demoResp.items.length ∧
    demoResp.items.length =
      min 5 (merged_all (fun _ => []) 0 "T" demoState).2.length :=
  api_news_total_counts.1 (fun _ => []) 0 "T" 5 demoState demoResp demoSt rfl

/-- C5: `get_all(limit)` (the `/api/news` handler) merges every
ensured bucket of every category, sorts the concatenation by `published`
descending, truncates to `limit`, and returns it with the global
last-build timestamp; the truncation keeps the most recent items (every
dropped item sorts at or below every kept item), and with 7 categories
of 10 items each and `limit = 5` exactly 5 items come back. -/
theorem api_news_aggregate :
    ∀ (fr : String → List Item) (now : Int) (iso : String) (limit : Nat)
      (s : St) (resp : NewsResponse) (s' : St),
      api_news fr now iso limit s = some (resp, s') →
      resp.items = (sortDesc (merged_all fr now iso s).2).take limit ∧
      (sortDesc (merged_all fr now iso s).2).Perm (merged_all fr now iso s).2 ∧
      resp.updated = s'.lastBuild ∧
      (∀ x ∈ resp.items,
        ∀ y ∈ (sortDesc (merged_all fr now iso s).2).drop limit,
          y.published ≤ x.published) ∧
      ((merged_all fr now iso s).2.length = 70 → limit = 5 →
          resp.items.length = 5) := by
  intro fr now iso limit s resp s' h
  obtain ⟨_, hitems, _, hupd, hst⟩ := api_news_eq_some h
  refine ⟨hitems, sortDesc_perm _, ?_, ?_, ?_⟩
  · rw [hupd, hst]
  · intro x hx y hy
    rw [hitems] at hx
    exact sorted_take_drop_dominance (sortDesc_sorted _) limit x hx y hy
  · intro hlen hlim
    rw [hitems, List.length_take, sortDesc_length, hlen, hlim]
    decide

/-- C5 witness: the demo state holds 7 categories of 10 fresh items
each; `limit = 5` returns exactly 5 items. -/
theorem api_news_aggregate_witness : demoResp.items.length = 5 :=
  (api_news_aggregate (fun _ => []) 0 "T" 5 demoState demoResp demoSt
    rfl).2.2.2.2 rfl rfl

/-! The new-item scan and the seen set -/

theorem scan_new_spec (items : List Item) : ∀ seen,
    (∀ it ∈ (scan_new seen items).2,
        keyOf it ∉ seen ∧ it.link ≠ "" ∧ it.link ≠ "#" ∧
        keyOf it ∈ (scan_new seen items).1)
    ∧ (∀ k ∈ seen, k ∈ (scan_new seen items).1)
    ∧ (scan_new seen items).2.Pairwise (fun a b => keyOf a ≠ keyOf b) := by
  induction items with
  | nil => intro seen; simp [scan_new]
  | cons it rest ih =>
      intro seen
      by_cases hc : keyOf it ∉ seen ∧ it.link ≠ "" ∧ it.link ≠ "#"
      · obtain ⟨ih1, ih2, ih3⟩ := ih (keyOf it :: seen)
        have hres : scan_new seen (it :: rest) =
            ((scan_new (keyOf it :: seen) rest).1,
             it :: (scan_new (keyOf it :: seen) rest).2) := by
          simp [scan_new, hc]
        rw [hres]
        refine ⟨?_, ?_, ?_⟩
        · intro x hx
          rcases List.mem_cons.mp hx with h1 | h2
          · subst h1
            exact ⟨hc.1, hc.2.1, hc.2.2, ih2 _ (List.mem_cons_self _ _)⟩
          · obtain ⟨ha, hb, hcx, hd⟩ := ih1 x h2
            exact ⟨fun hmem => ha (List.mem_cons_of_mem _ hmem), hb, hcx, hd⟩
        · intro k hk
          exact ih2 k (List.mem_cons_of_mem _ hk)
        · refine List.pairwise_cons.mpr ⟨?_, ih3⟩
          intro y hy
          have hn := (ih1 y hy).1
          intro he
          exact hn (by simp [← he])
      · obtain ⟨ih1, ih2, ih3⟩ := ih seen
        have hres : scan_new seen (it :: rest) = scan_new seen rest := by
          simp [scan_new, hc]
        rw [hres]
        exact ⟨ih1, ih2, ih3⟩

theorem ensure_fresh_seen_mono (fr : String → List Item) (now : Int)
    (iso cat : String) (s : St) :
    ∀ k ∈ s.seen, k ∈ (ensure_fresh fr now iso cat s).st.seen := by
  cases hbl : lookupC s.cache cat with
  | none =>
      rw [ensure_fresh_none hbl]
      exact (scan_new_spec _ s.seen).2.1
  | some b =>
      by_cases ht : CACHE_TTL_SECONDS < now - b.ts
      · rw [ensure_fresh_stale hbl ht]
        exact (scan_new_spec _ s.seen).2.1
      · rw [ensure_fresh_fresh hbl (not_lt.mp ht)]
        exact fun k hk => hk

theorem ensure_fresh_notified_spec (fr : String → List Item) (now : Int)
    (iso cat : String) (s : St) :
    (∀ it ∈ (ensure_fresh fr now iso cat s).notified,
        keyOf it ∉ s.seen ∧ it.link ≠ "" ∧ it.link ≠ "#" ∧
        keyOf it ∈ (ensure_fresh fr now iso cat s).st.seen)
    ∧ (ensure_fresh fr now iso cat s).notified.Pairwise
        (fun a b => keyOf a ≠ keyOf b) := by
  cases hbl : lookupC s.cache cat with
  | none =>
      rw [ensure_fresh_none hbl]
      exact ⟨(scan_new_spec _ s.seen).1, (scan_new_spec _ s.seen).2.2⟩
  | some b =>
      by_cases ht : CACHE_TTL_SECONDS < now - b.ts
      · rw [ensure_fresh_stale hbl ht]
        exact ⟨(scan_new_spec _ s.seen).1, (scan_new_spec _ s.seen).2.2⟩
      · rw [ensure_fresh_fresh hbl (not_lt.mp ht)]
        constructor
        · intro it hit; simp at hit
        · simp

/-- Once a key is in the seen set, no later call ever notifies it. -/
theorem run_trace_avoid (calls : List Call) : ∀ (s : St) (k : String × String),
    k ∈ s.seen → ∀ l ∈ (run_trace s calls).2, ∀ b ∈ l, keyOf b ≠ k := by
  induction calls with
  | nil => intro s k hk l hl; simp [run_trace] at hl
  | cons c cs ih =>
      intro s k hk l hl
      rcases List.mem_cons.mp hl with h1 | h2
      · subst h1
        intro b hb
        have hb' := ((ensure_fresh_notified_spec c.fetchRaw c.now c.nowIso
          c.cat s).1 b hb).1
        intro he; exact hb' (he ▸ hk)
      · exact ih _ k
          (ensure_fresh_seen_mono c.fetchRaw c.now c.nowIso c.cat s k hk) l h2

/-- C6: only items whose `(title, link)` key is not yet in the seen set
and whose link is a real URL (non-empty, not `"#"`) are handed to the
notification sink, and each handed key enters the seen set; along any
sequence of `_ensure_fresh` calls a key is handed to the sink at most
once — never at two different steps, and never twice within a step. -/
theorem notify_at_most_once :
    (∀ (fr : String → List Item) (now : Int) (iso cat : String) (s : St),
        ∀ it ∈ (ensure_fresh fr now iso cat s).notified,
          keyOf it ∉ s.seen ∧ it.link ≠ "" ∧ it.link ≠ "#" ∧
          keyOf it ∈ (ensure_fresh fr now iso cat s).st.seen)
    ∧ (∀ (s : St) (calls : List Call) (i j : Nat)
        (hi : i < (run_trace s calls).2.length)
        (hj : j < (run_trace s calls).2.length), i < j →
        ∀ a ∈ (run_trace s calls).2.get ⟨i, hi⟩,
        ∀ b ∈ (run_trace s calls).2.get ⟨j, hj⟩, keyOf a ≠ keyOf b)
    ∧ (∀ (s : St) (calls : List Call) (i : Nat)
        (hi : i < (run_trace s calls).2.length),
        ((run_trace s calls).2.get ⟨i, hi⟩).Pairwise
          (fun a b => keyOf a ≠ keyOf b)) := by
  refine ⟨?_, ?_, ?_⟩
  · intro fr now iso cat s
    exact (ensure_fresh_notified_spec fr now iso cat s).1
  · intro s calls
    induction calls generalizing s with
    | nil => intro i j hi; simp [run_trace] at hi
    | cons c cs ih =>
        intro i j hi hj hij a ha b hb
        match i, j with
        | 0, 0 => exact absurd hij (lt_irrefl 0)
        | 0, j' + 1 =>
            have ha' : a ∈ (ensure_fresh c.fetchRaw c.now c.nowIso c.cat
                s).notified := ha
            have hseen := ((ensure_fresh_notified_spec c.fetchRaw c.now
              c.nowIso c.cat s).1 a ha').2.2.2
            have hj' : j' < (run_trace (ensure_fresh c.fetchRaw c.now
                c.nowIso c.cat s).st cs).2.length := by
              have h' : j' + 1 < (run_trace s (c :: cs)).2.length := hj
              simp only [run_trace, List.length_cons] at h'
              omega
            have hb' : b ∈ (run_trace (ensure_fresh c.fetchRaw c.now c.nowIso
                c.cat s).st cs).2.get ⟨j', hj'⟩ := hb
            have hmem : (run_trace (ensure_fresh c.fetchRaw c.now c.nowIso
                c.cat s).st cs).2.get ⟨j', hj'⟩ ∈
                (run_trace (ensure_fresh c.fetchRaw c.now c.nowIso
                  c.cat s).st cs).2 := List.get_mem _ _ _
            have hkb := run_trace_avoid cs _ (keyOf a) hseen _ hmem b hb'
            exact fun he => hkb (he ▸ rfl)
        | i' + 1, 0 => exact absurd hij (by omega)
        | i' + 1, j' + 1 =>
            exact ih _ i' j'
              (by have : i' + 1 < (run_trace s (c :: cs)).2.length := hi
                  simpa [run_trace] using this)
              (by have : j' + 1 < (run_trace s (c :: cs)).2.length := hj
                  simpa [run_trace] using this)
              (by omega) a ha b hb
  · intro s calls
    induction calls generalizing s with
    | nil => intro i hi; simp [run_trace] at hi
    | cons c cs ih =>
        intro i hi
        match i with
        | 0 =>
            exact (ensure_fresh_notified_spec c.fetchRaw c.now c.nowIso
              c.cat s).2
        | i' + 1 =>
            exact ih _ i'
              (by have : i' + 1 < (run_trace s (c :: cs)).2.length := hi
                  simpa [run_trace] using this)

/-- C6 witness: from an empty seen set, a concrete fetched item with a
real link is handed to the sink; its key was unseen, its link is real,
and its key is in the seen set afterwards. -/
theorem notify_at_most_once_witness :
    keyOf ⟨"n", "https://n", "", "", "P"⟩ ∉ (⟨[], [], "B0"⟩ : St).seen ∧
    (⟨"n", "https://n", "", "", "P"⟩ : Item).link ≠ "" ∧
    (⟨"n", "https://n", "", "", "P"⟩ : Item).link ≠ "#" ∧
    keyOf ⟨"n", "https://n", "", "", "P"⟩ ∈
      (ensure_fresh (fun _ => [⟨"n", "https://n", "", "", "P"⟩]) 0 "T0" "X"
        ⟨[], [], "B0"⟩).st.seen :=
  notify_at_most_once.1 (fun _ => [⟨"n", "https://n", "", "", "P"⟩]) 0 "T0"
    "X" ⟨[], [], "B0"⟩ ⟨"n", "https://n", "", "", "P"⟩ (by decide)

/-! Force refresh: every bucket restamped, seen set intact -/

/-- Every bucket in the cache is stamped with the current time. -/
def AllTsNow (now : Int) (c : List (String × Bucket)) : Prop :=
  ∀ k b, lookupC c k = some b → b.ts = now

theorem ensure_fresh_allts {fr : String → List Item} {now : Int}
    {iso cat : String} {s : St} (h : AllTsNow now s.cache) :
    AllTsNow now (ensure_fresh fr now iso cat s).st.cache := by
  have hrefresh : AllTsNow now (refresh_bucket fr now iso cat s).st.cache := by
    intro k b hk
    rw [refresh_bucket_cache] at hk
    by_cases hkc : k = cat
    · subst hkc
      rw [lookupC_setC_self] at hk
      rw [← Option.some.inj hk]
      exact refresh_bucket_ts _ _ _ _ _
    · rw [lookupC_setC_ne _ _ _ _ hkc] at hk
      exact h k b hk
  cases hbl : lookupC s.cache cat with
  | none => rw [ensure_fresh_none hbl]; exact hrefresh
  | some b =>
      by_cases ht : CACHE_TTL_SECONDS < now - b.ts
      · rw [ensure_fresh_stale hbl ht]; exact hrefresh
      · rw [ensure_fresh_fresh hbl (not_lt.mp ht)]; exact h

theorem ensure_fresh_exists_after (fr : String → List Item) (now : Int)
    (iso cat : String) (s : St) :
    ∃ b, lookupC (ensure_fresh fr now iso cat s).st.cache cat = some b := by
  have hrefresh : ∃ b,
      lookupC (refresh_bucket fr now iso cat s).st.cache cat = some b := by
    rw [refresh_bucket_cache]
    exact ⟨_, lookupC_setC_self _ _ _⟩
  cases hbl : lookupC s.cache cat with
  | none => rw [ensure_fresh_none hbl]; exact hrefresh
  | some b =>
      by_cases ht : CACHE_TTL_SECONDS < now - b.ts
      · rw [ensure_fresh_stale hbl ht]; exact hrefresh
      · rw [ensure_fresh_fresh hbl (not_lt.mp ht)]; exact ⟨b, hbl⟩

theorem ensure_fresh_preserves_exists (fr : String → List Item) (now : Int)
    (iso cat : String) (s : St) (k : String) :
    (∃ b, lookupC s.cache k = some b) →
    ∃ b, lookupC (ensure_fresh fr now iso cat s).st.cache k = some b := by
  intro hk
  have hrefresh : ∃ b,
      lookupC (refresh_bucket fr now iso cat s).st.cache k = some b := by
    rw [refresh_bucket_cache]
    by_cases hkc : k = cat
    · subst hkc; exact ⟨_, lookupC_setC_self _ _ _⟩
    · rw [lookupC_setC_ne _ _ _ _ hkc]; exact hk
  cases hbl : lookupC s.cache cat with
  | none => rw [ensure_fresh_none hbl]; exact hrefresh
  | some b =>
      by_cases ht : CACHE_TTL_SECONDS < now - b.ts
      · rw [ensure_fresh_stale hbl ht]; exact hrefresh
      · rw [ensure_fresh_fresh hbl (not_lt.mp ht)]; exact hk

theorem prewarm_fold_covers (fr : String → List Item) (now : Int)
    (iso : String) : ∀ (cats : List String) (s : St), AllTsNow now s.cache →
    AllTsNow now
      ((cats.foldl (fun st c => (ensure_fresh fr now iso c st).st) s).cache) ∧
    (∀ k, (∃ b, lookupC s.cache k = some b) → ∃ b,
      lookupC
        ((cats.foldl (fun st c => (ensure_fresh fr now iso c st).st) s).cache)
        k = some b) ∧
    (∀ c ∈ cats, ∃ b,
      lookupC
        ((cats.foldl (fun st c => (ensure_fresh fr now iso c st).st) s).cache)
        c = some b) := by
  intro cats
  induction cats with
  | nil =>
      intro s h
      exact ⟨h, fun k hk => hk, by simp⟩
  | cons c cs ih =>
      intro s h
      obtain ⟨h1, h2, h3⟩ := ih (ensure_fresh fr now iso c s).st
        (ensure_fresh_allts h)
      refine ⟨h1, ?_, ?_⟩
      · intro k hk
        exact h2 k (ensure_fresh_preserves_exists fr now iso c s k hk)
      · intro c' hc'
        rcases List.mem_cons.mp hc' with hc1 | hc2
        · subst hc1
          exact h2 c' (ensure_fresh_exists_after fr now iso c' s)
        · exact h3 c' hc2

theorem prewarm_fold_seen_mono (fr : String → List Item) (now : Int)
    (iso : String) : ∀ (cats : List String) (s : St), ∀ k ∈ s.seen,
    k ∈ (cats.foldl (fun st c => (ensure_fresh fr now iso c st).st) s).seen := by
  intro cats
  induction cats with
  | nil => intro s k hk; exact hk
  | cons c cs ih =>
      intro s k hk
      exact ih (ensure_fresh fr now iso c s).st k
        (ensure_fresh_seen_mono fr now iso c s k hk)

/-- C7: `api_refresh` clears every cache bucket — leaving the seen set
(and last-build timestamp) intact at the clearing step — and then
re-runs `_ensure_fresh` over all known categories before returning:
afterwards every known category holds a bucket stamped with the refresh
time, no bucket anywhere is older than the refresh time, and the
pre-existing seen keys survive. -/
theorem api_refresh_spec :
    ∀ (fr : String → List Item) (now : Int) (iso : String) (s : St),
      (∀ c ∈ CATEGORIES, ∃ b,
        lookupC (api_refresh fr now iso s).cache c = some b ∧ b.ts = now) ∧
      (∀ k b, lookupC (api_refresh fr now iso s).cache k = some b →
        b.ts = now) ∧
      (∀ k ∈ s.seen, k ∈ (api_refresh fr now iso s).seen) ∧
      api_refresh fr now iso s =
        prewarm fr now iso ⟨[], s.seen, s.lastBuild⟩ := by
  intro fr now iso s
  have hvac : AllTsNow now (St.mk [] s.seen s.lastBuild).cache := by
    intro k b hk; simp [lookupC] at hk
  obtain ⟨h1, _, h3⟩ :=
    prewarm_fold_covers fr now iso CATEGORIES ⟨[], s.seen, s.lastBuild⟩ hvac
  refine ⟨?_, h1, ?_, rfl⟩
  · intro c hc
    obtain ⟨b, hb⟩ := h3 c hc
    exact ⟨b, hb, h1 c b hb⟩
  · intro k hk
    exact prewarm_fold_seen_mono fr now iso CATEGORIES
      ⟨[], s.seen, s.lastBuild⟩ k hk

/-- C7 witness: a stale bucket and a pre-seen key; after the forced
refresh the seen key is still present. -/
theorem api_refresh_spec_witness :
    ("k", "https://k") ∈ (api_refresh (fun _ => []) 0 "T"
      ⟨[("Ransomware", ⟨-100000, [⟨"a", "https://a", "", "", "P"⟩]⟩)],
       [("k", "https://k")], "B0"⟩).seen :=
  (api_refresh_spec (fun _ => []) 0 "T"
    ⟨[("Ransomware", ⟨-100000, [⟨"a", "https://a", "", "", "P"⟩]⟩)],
     [("k", "https://k")], "B0"⟩).2.2.1 ("k", "https://k") (by decide)

/-! Unknown categories -/

/-- C8 counterexample: reading the unknown category `"Bogus"` (no
configured sources, no curated fallback) through the freshness
controller does NOT yield an empty result with count 0: it yields the
single synthetic placeholder item, count 1. -/
theorem ensure_fresh_unknown_counterexample :
    (ensure_fresh (fun _ => []) 0 "T0" "Bogus" ⟨[], [], "B0"⟩).bucket.items
      = [placeholder_item "T0" "Bogus"] ∧
    (ensure_fresh (fun _ => []) 0 "T0" "Bogus"
      ⟨[], [], "B0"⟩).bucket.items.length ≠ 0 := by
  constructor
  · rfl
  · decide

/-- C8 (amended): for a category with no raw records and no curated
fallback content, the first read through the freshness controller
raises no exception and returns a bucket holding exactly one synthetic
placeholder item whose link is `"#"` — a non-navigable result, but not
an empty one. -/
theorem ensure_fresh_unknown_placeholder :
    ∀ (fr : String → List Item) (now : Int) (iso cat : String) (s : St),
      fr cat = [] → fallback_items iso cat = [] →
      lookupC s.cache cat = none →
      (ensure_fresh fr now iso cat s).bucket.items =
        [placeholder_item iso cat] ∧
      (ensure_fresh fr now iso cat s).bucket.items.length = 1 ∧
      (placeholder_item iso cat).link = "#" := by
  intro fr now iso cat s hfr hfb hnone
  have hfc : fetch_category (fr cat) = [] := by rw [hfr]; rfl
  rw [ensure_fresh_none hnone]
  have hitems := (refresh_bucket_items fr now iso cat s).2.2.2 hfc hfb
  exact ⟨hitems, by rw [hitems]; rfl, rfl⟩

/-- C8 witness: the amended statement evaluated at a concrete unknown
category from the empty state. -/
theorem ensure_fresh_unknown_placeholder_witness :
    (ensure_fresh (fun _ => []) 5 "T1" "Nope" ⟨[], [], "B1"⟩).bucket.items
      = [placeholder_item "T1" "Nope"] ∧
    (ensure_fresh (fun _ => []) 5 "T1" "Nope"
      ⟨[], [], "B1"⟩).bucket.items.length = 1 ∧
    (placeholder_item "T1" "Nope").link = "#" :=
  ensure_fresh_unknown_placeholder (fun _ => []) 5 "T1" "Nope" ⟨[], [], "B1"⟩
    rfl (by decide) rfl

/-! Dynamic model of `_normalize_entry`

`_normalize_entry` receives loosely-typed records from the feed
providers and accesses their fields with `entry.get(...)`, `or`
defaulting, `.strip()`, a nested `.get("title")` and
`datetime(*published_parsed[:6], tzinfo=utc).isoformat()`.  The
function body contains no try/except, so any exception raised by those
operations escapes it (the per-source handler in the caller then drops the
remaining records of that source).  To settle the totality claim the
relevant fragment of the dynamic semantics of Python is embedded: values
are `None`, strings, integers, dicts or time tuples; operations that
raise are modelled in `Except` with the exception name as the error. -/

/-- A Python value as seen by `_normalize_entry`. -/
inductive PyV where
  | vnone
  | vstr (s : String)
  | vint (n : Int)
  | vdict (d : List (String × PyV))
  | vtime (t : List Int)

/-- Python truthiness for the modelled values. -/
def truthy : PyV → Bool
  | .vnone => false
  | .vstr s => decide (s ≠ "")
  | .vint n => decide (n ≠ 0)
  | .vdict d => !d.isEmpty
  | .vtime t => !t.isEmpty

/-- Python `a or b`. -/
def pyOr (a b : PyV) : PyV := if truthy a then a else b

/-- First binding of a key in a dict. -/
def pyDictGet : List (String × PyV) → String → Option PyV
  | [], _ => none
  | (k, v) :: rest, key => if k = key then some v else pyDictGet rest key

/-- Model of `entry.get(k)`: `None` when the key is absent. -/
def eget (e : List (String × PyV)) (k : String) : PyV :=
  (pyDictGet e k).getD .vnone

/-- Model of `entry.get(k, d)`: the default applies only when the key is absent. -/
def egetD (e : List (String × PyV)) (k : String) (d : PyV) : PyV :=
  (pyDictGet e k).getD d

/-- Python `str.strip()` (default whitespace stripping). -/
def stripChars (s : String) : String :=
  String.mk (((s.data.dropWhile Char.isWhitespace).reverse.dropWhile
    Char.isWhitespace).reverse)

/-- Model of `.strip()`: only strings have the attribute. -/
def pyStrip : PyV → Except String String
  | .vstr s => .ok (stripChars s)
  | _ => .error "AttributeError: no attribute strip"

/-- Model of attribute access `.get(k)`: only dicts have the attribute. -/
def pyAttrGet : PyV → String → Except String PyV
  | .vdict d, k => .ok ((pyDictGet d k).getD .vnone)
  | _, _ => .error "AttributeError: no attribute get"

/-- Model of the slice `x[:6]`: defined for sequences (time tuples and strings). -/
def pySlice6 : PyV → Except String PyV
  | .vtime t => .ok (.vtime (t.take 6))
  | .vstr s => .ok (.vstr (String.mk (s.data.take 6)))
  | _ => .error "TypeError: object is not subscriptable"

def leapYear (y : Int) : Bool :=
  (y % 4 = 0 ∧ y % 100 ≠ 0) ∨ y % 400 = 0

def daysInMonth (y m : Int) : Int :=
  if m = 2 then (if leapYear y then 29 else 28)
  else if m = 4 ∨ m = 6 ∨ m = 9 ∨ m = 11 then 30
  else 31

def pad2 (n : Int) : String :=
  if n < 10 then "0" ++ toString n else toString n

def pad4 (n : Int) : String :=
  if n < 10 then "000" ++ toString n
  else if n < 100 then "00" ++ toString n
  else if n < 1000 then "0" ++ toString n
  else toString n

/-- Model of `datetime(*args, tzinfo=timezone.utc).isoformat()` for integer
arguments: validates the calendar ranges (raising `ValueError`
otherwise, or `TypeError` when fewer than 3 arguments arrive) and
renders the fixed-width UTC ISO-8601 string. -/
def pyDatetimeUtcIso (args : List Int) : Except String String :=
  match args with
  | y :: m :: d :: rest =>
      let h := rest.getD 0 0
      let mi := rest.getD 1 0
      let sec := rest.getD 2 0
      if 1 ≤ y ∧ y ≤ 9999 ∧ 1 ≤ m ∧ m ≤ 12 ∧ 1 ≤ d ∧ d ≤ daysInMonth y m ∧
         0 ≤ h ∧ h ≤ 23 ∧ 0 ≤ mi ∧ mi ≤ 59 ∧ 0 ≤ sec ∧ sec ≤ 59 then
        .ok (pad4 y ++ "-" ++ pad2 m ++ "-" ++ pad2 d ++ "T" ++
             pad2 h ++ ":" ++ pad2 mi ++ ":" ++ pad2 sec ++ "+00:00")
      else .error "ValueError: argument out of range"
  | _ => .error "TypeError: function missing required argument"

/-- Model of `datetime(*v, tzinfo=utc).isoformat()`: star-unpacking a time tuple
passes its integers; strings unpack to characters (`TypeError`);
everything else is not iterable or not integers. -/
def pyDatetimeStar (v : PyV) : Except String String :=
  match v with
  | .vtime t => pyDatetimeUtcIso t
  | .vstr _ => .error "TypeError: an integer is required"
  | _ => .error "TypeError: argument after * must be an iterable"

/-- The dict `_normalize_entry` returns.  `link` and `source` are
stored without any type check in the source, so they keep whatever
value the `or`-chains produced. -/
structure PyItem where
  title : String
  link : PyV
  summary : String
  source : PyV
  published : String

/-- Model of `_normalize_entry`, statement by statement; the first raising
operation aborts the record. -/
def normalize_entry (nowIso : String) (e : List (String × PyV)) :
    Except String PyItem :=
  (pyStrip (pyOr (eget e "title") (.vstr ""))).bind fun title =>
  (pyStrip (pyOr (pyOr (eget e "summary") (eget e "description"))
      (.vstr ""))).bind fun summary =>
  (pyAttrGet (pyOr (egetD e "source" (.vdict [])) (.vdict [])) "title").bind
    fun source0 =>
  (if truthy (pyOr (eget e "published_parsed") (eget e "updated_parsed"))
   then (pySlice6 (pyOr (eget e "published_parsed")
          (eget e "updated_parsed"))).bind fun sliced =>
        pyDatetimeStar sliced
   else .ok nowIso).bind fun published =>
  .ok ⟨title, pyOr (eget e "link") (.vstr ""), summary,
       pyOr (pyOr source0 (eget e "author")) (.vstr ""), published⟩

/-- Field values on which the `or`-then-`.strip()` idiom cannot raise:
absent/None or an actual string. -/
def strOrMissing (v : PyV) : Prop := v = .vnone ∨ ∃ s, v = .vstr s

/-- Source fields on which the or-dict-default then attribute get idiom cannot raise. -/
def dictOrFalsy (v : PyV) : Prop := (∃ d, v = .vdict d) ∨ truthy v = false

/-- Timestamp values on which the `datetime(...)` branch cannot raise:
falsy (absent) or a time tuple whose first six fields form a valid
calendar date-time. -/
def timeOrAbsent (v : PyV) : Prop :=
  truthy v = false ∨
  ∃ t, v = .vtime t ∧ ∃ ps, pyDatetimeUtcIso (t.take 6) = .ok ps

theorem pyStrip_or_ok : ∀ v, strOrMissing v →
    ∃ s, pyStrip (pyOr v (.vstr "")) = .ok s ∧ (v = .vnone → s = "") := by
  intro v hv
  rcases hv with h | ⟨s, h⟩
  · subst h
    exact ⟨"", rfl, fun _ => rfl⟩
  · subst h
    by_cases hs : truthy (PyV.vstr s) = true
    · refine ⟨stripChars s, by simp [pyOr, hs, pyStrip], ?_⟩
      intro hc; cases hc
    · refine ⟨"", ?_, fun _ => rfl⟩
      have hor : pyOr (PyV.vstr s) (.vstr "") = .vstr "" := by
        simp [pyOr, hs]
      rw [hor]; rfl

theorem strOrMissing_pyOr {a b : PyV} (ha : strOrMissing a)
    (hb : strOrMissing b) : strOrMissing (pyOr a b) := by
  unfold pyOr
  by_cases h : truthy a = true
  · simpa [h] using ha
  · simpa [h] using hb

theorem pyOr_dict {v : PyV} (hv : dictOrFalsy v) :
    ∃ d, pyOr v (.vdict []) = .vdict d := by
  by_cases h : truthy v = true
  · rcases hv with ⟨d, hd⟩ | hf
    · subst hd
      exact ⟨d, by simp [pyOr, h]⟩
    · rw [hf] at h; cases h
  · exact ⟨[], by simp [pyOr, h]⟩

theorem published_ok (nowIso : String) (pp : PyV) (h : timeOrAbsent pp) :
    ∃ p, (if truthy pp
          then (pySlice6 pp).bind fun sliced => pyDatetimeStar sliced
          else .ok nowIso) = .ok p ∧ (truthy pp = false → p = nowIso) := by
  by_cases htr : truthy pp = true
  · rcases h with hf | ⟨t, hteq, ps, hps⟩
    · rw [hf] at htr; cases htr
    · subst hteq
      refine ⟨ps, ?_, ?_⟩
      · simp only [htr, if_true, pySlice6, Except.bind, pyDatetimeStar]
        exact hps
      · intro hc; rw [hc] at htr; cases htr
  · have hf : truthy pp = false := by revert htr; cases truthy pp <;> simp
    exact ⟨nowIso, by simp [htr], fun _ => rfl⟩

/-- C9 counterexample: a raw record whose `title` field is the integer
`42` makes `_normalize_entry` raise (`(42).strip()` →
`AttributeError`), so an exception DOES escape the normalizer for a
wrongly-typed field instead of the field degrading to a default. -/
theorem normalize_entry_badtype_counterexample :
    normalize_entry "T0" [("title", PyV.vint 42)] =
      .error "AttributeError: no attribute strip" := rfl

/-- C9 (amended): the normalizer is total — and degrades each missing
field to its empty/default value (`""`, or the current UTC time for
`published`) — on every record whose present fields are well-typed:
title/summary/description a string or absent, source a dict or falsy,
timestamp absent or a valid time tuple.  A wrongly-typed present field
instead raises an exception that escapes the normalizer. -/
theorem normalize_entry_total_welltyped :
    ∀ (nowIso : String) (e : List (String × PyV)),
      strOrMissing (eget e "title") →
      strOrMissing (eget e "summary") →
      strOrMissing (eget e "description") →
      dictOrFalsy (egetD e "source" (.vdict [])) →
      timeOrAbsent (pyOr (eget e "published_parsed")
        (eget e "updated_parsed")) →
      (normalize_entry nowIso e).isOk = true ∧
      (∀ it : PyItem, normalize_entry nowIso e = .ok it →
        (eget e "title" = .vnone → it.title = "") ∧
        (eget e "link" = .vnone → it.link = .vstr "") ∧
        (eget e "summary" = .vnone → eget e "description" = .vnone →
            it.summary = "") ∧
        (truthy (pyOr (eget e "published_parsed") (eget e "updated_parsed"))
            = false → it.published = nowIso)) := by
  intro nowIso e ht hs hd hsrc hpp
  obtain ⟨t, htok, htdef⟩ := pyStrip_or_ok _ ht
  obtain ⟨sm, hsmok, hsmdef⟩ := pyStrip_or_ok _ (strOrMissing_pyOr hs hd)
  obtain ⟨dd, hdd⟩ := pyOr_dict hsrc
  obtain ⟨p, hpok, hpdef⟩ := published_ok nowIso _ hpp
  have hnorm : normalize_entry nowIso e = .ok
      ⟨t, pyOr (eget e "link") (.vstr ""), sm,
       pyOr (pyOr ((pyDictGet dd "title").getD .vnone) (eget e "author"))
         (.vstr ""), p⟩ := by
    unfold normalize_entry
    rw [htok, hsmok, hdd, hpok]
    rfl
  constructor
  · rw [hnorm]; rfl
  · intro it hit
    rw [hnorm] at hit
    have hinj := Except.ok.inj hit
    subst hinj
    refine ⟨fun h0 => htdef h0, ?_, ?_, hpdef⟩
    · intro h0
      show pyOr (eget e "link") (.vstr "") = .vstr ""
      rw [h0]; rfl
    · intro h1 h2
      apply hsmdef
      rw [h1, h2]; rfl

/-- C9 witness: the all-fields-missing record normalizes successfully
(to all-default fields). -/
theorem normalize_entry_total_welltyped_witness :
    (normalize_entry "T0" []).isOk = true :=
  (normalize_entry_total_welltyped "T0" []
    (Or.inl rfl) (Or.inl rfl) (Or.inl rfl)
    (Or.inl ⟨[], rfl⟩) (Or.inl rfl)).1

end CTI
